import Mathlib

/-!
Verification of the Hourai validation core against its specification.

The definitions below are a shallow embedding of the Python sources:
* `src/hourai/extensions/validation/context.py` (`ValidationContext`)
* `src/hourai/extensions/validation/rejectors.py` (the rejector validators)
* `src/base/hourai/bot/extensions/validation/__init__.py`
  (`Validation.purge_guild`, `_is_kickable`, `on_raw_reaction_add`)

Platform handles (the bot object, the Discord member/guild objects, storage
sessions) are external collaborators; the embedding carries exactly the data
the validation logic reads from them, passed in as explicit parameters.
-/

/-- Shallow embedding of `ValidationContext` (context.py, lines 9-56).
Only the fields the validation chain mutates are carried: the running
`approved` verdict and the two append-only reason lists.  The platform
handles held by the Python object (`bot`, `member`, `guild_config`, `role`)
are external collaborators and are passed to the individual validators as
explicit inputs instead. -/
structure ValidationContext where
  approved : Bool
  approval_reasons : List String
  rejection_reasons : List String
deriving DecidableEq, Repr

/-- A fresh context as built by `ValidationContext.__init__` (context.py,
lines 21-23): `approved = True`, both reason lists empty. -/
def initial_context : ValidationContext :=
  { approved := true, approval_reasons := [], rejection_reasons := [] }

/-- `ValidationContext.add_approval_reason` (context.py, lines 48-51):
appends the reason and sets `approved` to `True`. -/
def add_approval_reason (c : ValidationContext) (reason : String) :
    ValidationContext :=
  { c with approval_reasons := c.approval_reasons ++ [reason],
           approved := true }

/-- `ValidationContext.add_rejection_reason` (context.py, lines 53-56):
appends the reason and sets `approved` to `False`. -/
def add_rejection_reason (c : ValidationContext) (reason : String) :
    ValidationContext :=
  { c with rejection_reasons := c.rejection_reasons ++ [reason],
           approved := false }

/-- One reason-recording call a validator makes on the context.  Validators
communicate with the pipeline only through `add_approval_reason` and
`add_rejection_reason` (spec section 4.1: implementations never return a
value; they communicate only by mutating ctx). -/
inductive ReasonEvent where
  | approval (reason : String)
  | rejection (reason : String)
deriving DecidableEq, Repr

/-- Apply one recorded reason event to the context. -/
def apply_event (c : ValidationContext) : ReasonEvent → ValidationContext
  | .approval r => add_approval_reason c r
  | .rejection r => add_rejection_reason c r

/-- Apply a sequence of reason events in order. -/
def run_events (c : ValidationContext) (es : List ReasonEvent) :
    ValidationContext :=
  es.foldl apply_event c

/-- Modelled from the spec: the observable behaviour of one `Validator`
(the `Validator` base class lives in `validation/common.py`, which is not
under `src/`).  Per spec section 4.1 a validator communicates only by adding
reasons to the context or doing nothing, and may instead raise an
unexpected fault.  `events` are the reason-recording calls it performs
before returning or raising; `fault` records whether it raises afterwards
(a raising validator's earlier mutations persist, since the Python context
object is shared). -/
structure ValidatorRun where
  events : List ReasonEvent
  fault : Bool
deriving DecidableEq, Repr

/-- Number of validators in the chain that raise, i.e. the number of
`bot.send_owner_error` operator reports `validate_member` issues
(context.py, line 69). -/
def count_faults (vs : List ValidatorRun) : Nat :=
  (vs.filter (fun v => v.fault)).length

/-- `ValidationContext.validate_member` (context.py, lines 62-70): run each
validator in order inside a `try`/`except`; a raising validator is caught,
reported to the owner, and the loop continues with the next validator.
Returns the final context (whose `approved` field is the method's return
value) together with the number of owner-error reports sent. -/
def validate_member : List ValidatorRun → ValidationContext →
    ValidationContext × Nat
  | [], c => (c, 0)
  | v :: vs, c =>
    let c1 := run_events c v.events
    let rest := validate_member vs c1
    (rest.1, (if v.fault then 1 else 0) + rest.2)

/-- All reason events recorded across the chain, in chain order. -/
def chain_events (vs : List ValidatorRun) : List ReasonEvent :=
  vs.flatMap ValidatorRun.events

/-- The polarity of one recorded reason: an approval sets `approved` to
`true`, a rejection to `false`. -/
def event_polarity : ReasonEvent → Bool
  | .approval _ => true
  | .rejection _ => false

/-- Written from the spec's words (spec sections 3 and 8): the final
verdict equals the polarity of the last recorded reason, or `true` when no
validator recorded any reason. -/
def spec_final_verdict (es : List ReasonEvent) : Bool :=
  match es.getLast? with
  | some e => event_polarity e
  | none => true

theorem run_events_append (c : ValidationContext)
    (es fs : List ReasonEvent) :
    run_events c (es ++ fs) = run_events (run_events c es) fs := by
  simp [run_events]

theorem validate_member_unrolled (vs : List ValidatorRun)
    (c : ValidationContext) :
    validate_member vs c = (run_events c (chain_events vs), count_faults vs) := by
  induction vs generalizing c with
  | nil => simp [validate_member, chain_events, count_faults, run_events]
  | cons v vs ih =>
    simp only [validate_member, ih, chain_events, List.flatMap_cons,
      run_events_append, count_faults, List.filter_cons]
    cases hv : v.fault
    · simp [hv, count_faults, chain_events]
    · simp [hv, count_faults, chain_events]
      omega

theorem run_events_approved (es : List ReasonEvent) (c : ValidationContext) :
    (run_events c es).approved =
      match es.getLast? with
      | some e => event_polarity e
      | none => c.approved := by
  induction es using List.reverseRecOn generalizing c with
  | nil => simp [run_events]
  | append_singleton es e ih =>
    rw [run_events_append]
    cases e <;>
      simp [run_events, apply_event, add_approval_reason,
        add_rejection_reason, event_polarity, List.getLast?_concat]

/-- C1: for every validator chain, running the chain from a fresh context
yields a final `approved` equal to the polarity of the last reason recorded
by any validator in chain order (an approval reason gives `true`, a
rejection reason gives `false`), and `true` when no validator recorded a
reason. -/
theorem pipeline_last_writer (vs : List ValidatorRun) :
    (validate_member vs initial_context).1.approved =
      spec_final_verdict (chain_events vs) := by
  rw [validate_member_unrolled, run_events_approved]
  cases h : (chain_events vs).getLast? <;>
    simp [spec_final_verdict, h, initial_context]

theorem run_events_reasons_extend (es : List ReasonEvent)
    (c : ValidationContext) :
    ∃ a r, (run_events c es).approval_reasons = c.approval_reasons ++ a ∧
      (run_events c es).rejection_reasons = c.rejection_reasons ++ r := by
  induction es generalizing c with
  | nil => exact ⟨[], [], by simp [run_events], by simp [run_events]⟩
  | cons e es ih =>
    obtain ⟨a, r, ha, hr⟩ := ih (apply_event c e)
    have hrun : run_events c (e :: es) = run_events (apply_event c e) es := rfl
    cases e with
    | approval s =>
      refine ⟨s :: a, r, ?_, ?_⟩
      · rw [hrun, ha]; simp [apply_event, add_approval_reason]
      · rw [hrun, hr]; simp [apply_event, add_approval_reason]
    | rejection s =>
      refine ⟨a, s :: r, ?_, ?_⟩
      · rw [hrun, ha]; simp [apply_event, add_rejection_reason]
      · rw [hrun, hr]; simp [apply_event, add_rejection_reason]

/-- C7: across one evaluation the reason lists only grow by appending at
the end — after running any further validators, the reasons accumulated by
an earlier prefix of the chain are still an initial segment, in order, of
the final reason lists. -/
theorem reasons_append_only (vs ws : List ValidatorRun)
    (c : ValidationContext) :
    ∃ a r,
      (validate_member (vs ++ ws) c).1.approval_reasons =
        (validate_member vs c).1.approval_reasons ++ a ∧
      (validate_member (vs ++ ws) c).1.rejection_reasons =
        (validate_member vs c).1.rejection_reasons ++ r := by
  rw [validate_member_unrolled, validate_member_unrolled]
  have hbind : chain_events (vs ++ ws) = chain_events vs ++ chain_events ws := by
    simp [chain_events]
  rw [hbind, run_events_append]
  exact run_events_reasons_extend (chain_events ws) _

theorem count_faults_append (vs ws : List ValidatorRun) :
    count_faults (vs ++ ws) = count_faults vs + count_faults ws := by
  simp [count_faults]

/-- C4: a validator that raises an unexpected fault does not abort the
chain: the pipeline reports the fault to the operator (one owner-error
report per faulting validator, so the report count counts the fault) and
the final context is the one obtained by running every validator's recorded
events in order — including every validator after the faulting one — so the
returned `approved` is the value accumulated by the whole chain. -/
theorem pipeline_fault_isolation (vs ws : List ValidatorRun)
    (v : ValidatorRun) (c : ValidationContext) (h : v.fault = true) :
    validate_member (vs ++ v :: ws) c =
      (run_events c (chain_events (vs ++ v :: ws)),
        count_faults vs + (1 + count_faults ws)) := by
  rw [validate_member_unrolled, count_faults_append]
  have : count_faults (v :: ws) = 1 + count_faults ws := by
    simp [count_faults, List.filter_cons, h]; omega
  rw [this]

/-- Chain used to witness the fault-isolation theorem: a rejector, then a
faulting approver, then another rejector. -/
def witness_chain_head : List ValidatorRun :=
  [{ events := [ReasonEvent.rejection "r1"], fault := false }]

/-- The faulting validator of the witness chain. -/
def witness_faulty : ValidatorRun :=
  { events := [ReasonEvent.approval "a1"], fault := true }

/-- Validators that follow the faulting one in the witness chain. -/
def witness_chain_tail : List ValidatorRun :=
  [{ events := [ReasonEvent.rejection "r2"], fault := false }]

theorem pipeline_fault_isolation_witness :
    witness_faulty.fault = true ∧
    validate_member (witness_chain_head ++ witness_faulty :: witness_chain_tail)
        initial_context =
      (run_events initial_context
          (chain_events (witness_chain_head ++ witness_faulty :: witness_chain_tail)),
        count_faults witness_chain_head + (1 + count_faults witness_chain_tail)) :=
  ⟨rfl, pipeline_fault_isolation witness_chain_head witness_chain_tail
    witness_faulty initial_context rfl⟩

/-- One guild member as read by the purge job (`__init__.py`, lines 169-176):
current role ids, join timestamp (absent for some members), bot flag, and
the boost timestamp `premium_since` (absent for non-boosters).  Timestamps
are integers (seconds); only their ordering matters to the job. -/
structure Member where
  roles : List Nat
  joined_at : Option Int
  bot : Bool
  premium_since : Option Int
deriving DecidableEq, Repr

/-- The guild data `Validation.purge_guild` reads (`__init__.py`, lines
164-203): the configured validation role (if any), whether the bot holds
the kick-members permission, and the membership snapshot streamed by
`guild.fetch_members` in iteration order. -/
structure Guild where
  validation_role : Option Nat
  kick_members : Bool
  members : List Member
deriving DecidableEq, Repr

/-- `_is_kickable` (`__init__.py`, lines 169-176): a member is kickable
when none of the checks hold — it does not carry the validation role, it is
not "too new" (`joined_at is not None and joined_at >= cutoff_time`), it is
not a bot, and it is not a booster (`premium_since is not None`).  Note a
member with no recorded `joined_at` is never "too new". -/
def is_kickable (role : Nat) (cutoff : Int) (m : Member) : Bool :=
  let is_new : Bool :=
    match m.joined_at with
    | some j => decide (cutoff ≤ j)
    | none => false
  !(decide (role ∈ m.roles) || is_new || m.bot || m.premium_since.isSome)

/-- The member loop of `purge_guild` (`__init__.py`, lines 189-201): walk
the membership, count each kickable member, and — when not a dry run —
kick it (the batching via `asyncio.gather` bounds concurrency only; the set
of kicked members is the set of counted members).  Returns the count and
the list of members kicked, in iteration order. -/
def purge_loop (role : Nat) (cutoff : Int) (dry_run : Bool) :
    List Member → Nat × List Member
  | [] => (0, [])
  | m :: ms =>
    let rest := purge_loop role cutoff dry_run ms
    if is_kickable role cutoff m then
      (rest.1 + 1, if dry_run then rest.2 else m :: rest.2)
    else rest

/-- `Validation.purge_guild` (`__init__.py`, lines 164-203): returns with
no count (`None`) when no validation role is configured or the bot lacks
the kick permission; otherwise runs the member loop and returns the count
together with the members kicked (empty on a dry run). -/
def purge_guild (g : Guild) (cutoff : Int) (dry_run : Bool) :
    Option (Nat × List Member) :=
  match g.validation_role with
  | none => none
  | some role =>
    if g.kick_members = false then none
    else some (purge_loop role cutoff dry_run g.members)

theorem purge_loop_dry (role : Nat) (cutoff : Int) (ms : List Member) :
    purge_loop role cutoff true ms =
      ((ms.filter (is_kickable role cutoff)).length, []) := by
  induction ms with
  | nil => rfl
  | cons m ms ih =>
    simp only [purge_loop, ih, List.filter_cons]
    cases h : is_kickable role cutoff m <;> simp [h]

theorem purge_loop_exec (role : Nat) (cutoff : Int) (ms : List Member) :
    purge_loop role cutoff false ms =
      ((ms.filter (is_kickable role cutoff)).length,
        ms.filter (is_kickable role cutoff)) := by
  induction ms with
  | nil => rfl
  | cons m ms ih =>
    simp only [purge_loop, ih, List.filter_cons]
    cases h : is_kickable role cutoff m <;> simp [h]

/-- C5: the scan phase (dry run) kicks nobody — its member list is empty —
and on the same membership snapshot the execute phase returns the same
count `n`, kicking exactly the `n` members the scan counted, namely those
of the snapshot satisfying the kickable predicate, in order. -/
theorem purge_scan_execute (g : Guild) (cutoff : Int) (n : Nat)
    (l : List Member) (h : purge_guild g cutoff true = some (n, l)) :
    l = [] ∧ ∃ role ks, g.validation_role = some role ∧
      purge_guild g cutoff false = some (n, ks) ∧
      ks.length = n ∧
      ks = g.members.filter (is_kickable role cutoff) := by
  cases hr : g.validation_role with
  | none => rw [purge_guild, hr] at h; cases h
  | some role =>
    cases hk : g.kick_members with
    | false => rw [purge_guild, hr] at h; simp [hk] at h
    | true =>
      have hmain : purge_guild g cutoff true =
          some ((g.members.filter (is_kickable role cutoff)).length, []) := by
        rw [purge_guild, hr]
        simp [hk, purge_loop_dry]
      rw [hmain] at h
      injection h with h2
      injection h2 with hn hl
      subst hn
      subst hl
      refine ⟨rfl, role, g.members.filter (is_kickable role cutoff),
        ?_, ?_, rfl, rfl⟩
      · first
        | exact hr
        | rfl
      rw [purge_guild, hr]
      simp [hk, purge_loop_exec]

/-- A verified member of the demonstration guild. -/
def member_trusted : Member :=
  { roles := [1], joined_at := some 0, bot := false, premium_since := none }

/-- A bot member of the demonstration guild. -/
def member_bot : Member :=
  { roles := [], joined_at := some 0, bot := true, premium_since := none }

/-- A boosting member of the demonstration guild. -/
def member_booster : Member :=
  { roles := [], joined_at := some 0, bot := false, premium_since := some 5 }

/-- A stale unverified member of the demonstration guild. -/
def member_stale : Member :=
  { roles := [], joined_at := some 0, bot := false, premium_since := none }

/-- Demonstration guild with validation role `1`, kick permission, and the
membership `[trusted, bot, booster, stale]` from the spec's example. -/
def demo_guild : Guild :=
  { validation_role := some 1, kick_members := true,
    members := [member_trusted, member_bot, member_booster, member_stale] }

theorem purge_scan_execute_witness :
    purge_guild demo_guild 100 true = some (1, []) ∧
    (([] : List Member) = [] ∧ ∃ role ks,
      demo_guild.validation_role = some role ∧
      purge_guild demo_guild 100 false = some (1, ks) ∧
      ks.length = 1 ∧
      ks = demo_guild.members.filter (is_kickable role 100)) :=
  ⟨by decide, purge_scan_execute demo_guild 100 1 [] (by decide)⟩

/-- C10: when no validation role is configured, or the bot lacks the
kick-members permission, `purge_guild` returns no count at all (`None`,
not `0`) — for any membership snapshot, cutoff and phase, so no member is
iterated or removed. -/
theorem purge_not_configured (g : Guild) (cutoff : Int) (dry_run : Bool)
    (h : g.validation_role = none ∨ g.kick_members = false) :
    purge_guild g cutoff dry_run = none := by
  cases h with
  | inl h => rw [purge_guild, h]
  | inr h =>
    cases hr : g.validation_role with
    | none => rw [purge_guild, hr]
    | some role => rw [purge_guild, hr]; simp [h]

/-- Demonstration guild with no configured validation role. -/
def unconfigured_guild : Guild :=
  { validation_role := none, kick_members := true,
    members := [member_stale] }

theorem purge_not_configured_witness :
    (unconfigured_guild.validation_role = none ∨
      unconfigured_guild.kick_members = false) ∧
    purge_guild unconfigured_guild 100 true = none :=
  ⟨Or.inl rfl, purge_not_configured unconfigured_guild 100 true (Or.inl rfl)⟩

/-- Written from the words of claim C6, for comparison with `is_kickable`:
the member lacks the trust role, joined before the cutoff, is not a bot,
and is not a booster. -/
def claim_kickable (role : Nat) (cutoff : Int) (m : Member) : Bool :=
  !(decide (role ∈ m.roles)) &&
    (match m.joined_at with
     | some j => decide (j < cutoff)
     | none => false) &&
    !m.bot && !m.premium_since.isSome

/-- A member with no recorded join timestamp and no role, not a bot, not a
booster. -/
def member_no_join_time : Member :=
  { roles := [], joined_at := none, bot := false, premium_since := none }

/-- C6 counterexample: a member whose join timestamp is unrecorded did not
"join before the cutoff", yet the code counts it as kickable — the claim's
predicate disagrees with `_is_kickable` at this member. -/
theorem is_kickable_counterexample :
    is_kickable 1 100 member_no_join_time = true ∧
    claim_kickable 1 100 member_no_join_time = false := by
  decide

/-- C6 (amended): the kickable predicate holds exactly when the member
lacks the trust role, either has no recorded join time or joined strictly
before the cutoff, is not a bot, and is not a booster; and on the
demonstration membership `[trusted, bot, booster, stale]` the scan phase
counts exactly 1 member. -/
theorem is_kickable_characterization :
    (∀ (role : Nat) (cutoff : Int) (m : Member),
      is_kickable role cutoff m = true ↔
        role ∉ m.roles ∧
        (m.joined_at = none ∨ ∃ j, m.joined_at = some j ∧ j < cutoff) ∧
        m.bot = false ∧ m.premium_since = none) ∧
    purge_guild demo_guild 100 true = some (1, []) := by
  constructor
  · intro role cutoff m
    cases hj : m.joined_at with
    | none =>
      simp [is_kickable, hj]
      tauto
    | some j =>
      simp [is_kickable, hj, Int.not_le]
      tauto
  · decide

/-- Case-insensitive character comparison, the `(?i)` flag of the
generalized patterns (Python `casefold`/`IGNORECASE` modelled as
per-character lowercasing; the claims only exercise ASCII). -/
def chars_equal_ci (a b : Char) : Bool :=
  a.toLower == b.toLower

/-- Tails of the value remaining after consuming a nonempty run of
characters case-insensitively equal to `c` — the ways the one-or-more
repetition of a generalized pattern character can consume input. -/
def run_tails (c : Char) : List Char → List (List Char)
  | [] => []
  | v :: vs => if chars_equal_ci c v then vs :: run_tails c vs else []

/-- Modelled from the spec: matching of the pattern `generalize_filter`
builds from a literal filter string (`generalize_filter` lives in
`validation/common.py`, which is not under `src/`; spec section 2 describes
it as building permissive, case-insensitive patterns from literal filter
strings, with each alphanumeric character matched tolerantly).  Each
alphanumeric filter character matches one or more case-insensitive
occurrences of itself; other characters match one occurrence.  `gmatch`
has Python `re.match` semantics: the pattern must match a leading segment
of the value, and the rest of the value is ignored once the pattern is
exhausted. -/
def gmatch : List Char → List Char → Bool
  | [], _ => true
  | p :: ps, v =>
    if p.isAlphanum then
      (run_tails p v).any (fun t => gmatch ps t)
    else
      match v with
      | [] => false
      | w :: ws => if chars_equal_ci p w then gmatch ps ws else false

/-- Python `re.search` semantics over the same generalized patterns: the
pattern may match starting at any position of the value. -/
def gsearch (ps : List Char) : List Char → Bool
  | [] => gmatch ps []
  | v :: vs => gmatch ps (v :: vs) || gsearch ps vs

/-- Whole-value matching of a generalized pattern (Python `re.fullmatch`
semantics): the pattern must consume the entire value.  This is the
matching relation claim C2 ascribes to `fullMatch=true`. -/
def gfull : List Char → List Char → Bool
  | [], v => v.isEmpty
  | p :: ps, v =>
    if p.isAlphanum then
      (run_tails p v).any (fun t => gfull ps t)
    else
      match v with
      | [] => false
      | w :: ws => if chars_equal_ci p w then gfull ps ws else false

/-- `StringFilterRejector` (rejectors.py, lines 43-63): for each value
produced by the field selector (by default the user's known usernames) and
each filter string, test the filter's generalized pattern with `re.match`
when `full_match` was requested and `re.search` otherwise; on a hit append
`prefix + "Matches: `filter`"` as a rejection reason.  `pre` is the
constructor's `prefix` argument and `values` the output of `subfield`. -/
def string_filter_rejector (pre : String) (filters : List String)
    (full_match : Bool) (values : List String) (c : ValidationContext) :
    ValidationContext :=
  values.foldl (fun c v =>
    filters.foldl (fun c f =>
      if (if full_match then gmatch f.data v.data else gsearch f.data v.data)
      then add_rejection_reason c (pre ++ "Matches: `" ++ f ++ "`")
      else c) c) c

/-- C2 is contradicted by the code: with `full_match=True` the rejector
uses Python `re.match`, which anchors only at the start of the value, so
the generalized pattern of the filter `"ab"` fires on the value `"abc"` —
a proper leading substring match — even though the pattern does not match
the entire value (`gfull` is false there).  The claim (and the flag's
name) require whole-value matching, i.e. `re.fullmatch`. -/
theorem string_filter_full_match_bug :
    (string_filter_rejector "Likely user bot. " ["ab"] true ["abc"]
        initial_context).rejection_reasons
      = ["Likely user bot. Matches: `ab`"] ∧
    gfull "ab".data "abc".data = false := by
  decide

/-- `BannedUsernameRejector._normalize` (rejectors.py, lines 150-151):
`" ".join(val.casefold().split())` — casefold (modelled as per-character
lowercasing), split on runs of whitespace discarding empty pieces, rejoin
with single spaces. -/
def normalize_name (val : String) : String :=
  String.intercalate " "
    (((val.map Char.toLower).split (fun ch => ch.isWhitespace)).filter
      (fun t => t ≠ ""))

/-- Insertion into a Python dict modelled as an association list: an
existing key keeps its position and gets the new value; a new key is
appended at the end. -/
def dict_insert (d : List (String × String)) (k v : String) :
    List (String × String) :=
  if d.any (fun p => p.1 == k) then
    d.map (fun p => if p.1 == k then (k, v) else p)
  else
    d ++ [(k, v)]

/-- The dict comprehension of rejectors.py, lines 139-140: normalized ban
name mapped to the original banned name, later entries overwriting. -/
def normalized_bans (ban_names : List String) : List (String × String) :=
  ban_names.foldl (fun d b => dict_insert d (normalize_name b) b) []

/-- One iteration of the username loop (rejectors.py, lines 141-148): look
the normalized username up among the normalized banned names (the `break`
takes the first dict entry with an equal key) and on a hit append the
rejection reason naming the original banned name. -/
def username_step (nb : List (String × String)) (c : ValidationContext)
    (u : String) : ValidationContext :=
  match nb.find? (fun p => p.1 == normalize_name u) with
  | some p =>
    add_rejection_reason c
      ("Exact username match with banned user: `" ++ p.2 ++ "`.")
  | none => c

/-- `BannedUsernameRejector.validate_member` (rejectors.py, lines 134-148):
a no-op without the ban-members permission (the permission needed to read
the guild's ban list); otherwise compare every known username of the user,
normalized, against the normalized names of the guild's banned users.
`can_ban` is `ctx.guild.me.guild_permissions.ban_members`, `ban_names` the
names of the users in `ctx.guild.bans()`, `usernames` the context's
memoized username set in iteration order. -/
def banned_username_rejector (can_ban : Bool) (ban_names : List String)
    (usernames : List String) (c : ValidationContext) : ValidationContext :=
  if can_ban = false then c
  else usernames.foldl (username_step (normalized_bans ban_names)) c

theorem username_step_length (nb : List (String × String))
    (c : ValidationContext) (u : String) :
    (username_step nb c u).rejection_reasons.length =
      c.rejection_reasons.length +
        (if (nb.find? (fun p => p.1 == normalize_name u)).isSome then 1
         else 0) := by
  unfold username_step
  cases h : nb.find? (fun p => p.1 == normalize_name u) <;>
    simp [h, add_rejection_reason]

theorem username_loop_mono (nb : List (String × String))
    (us : List String) (c : ValidationContext) :
    c.rejection_reasons.length ≤
      (us.foldl (username_step nb) c).rejection_reasons.length := by
  induction us generalizing c with
  | nil => simp
  | cons u us ih =>
    refine le_trans ?_ (ih (username_step nb c u))
    rw [username_step_length]
    omega

theorem username_loop_grows_iff (nb : List (String × String))
    (us : List String) (c : ValidationContext) :
    c.rejection_reasons.length <
        (us.foldl (username_step nb) c).rejection_reasons.length ↔
      ∃ u ∈ us, (nb.find? (fun p => p.1 == normalize_name u)).isSome := by
  induction us generalizing c with
  | nil => simp
  | cons u us ih =>
    simp only [List.foldl_cons, List.mem_cons, exists_eq_or_imp]
    cases hfind : nb.find? (fun p => p.1 == normalize_name u) with
    | none =>
      have hstep : username_step nb c u = c := by
        unfold username_step
        rw [hfind]
      rw [hstep, ih]
      simp [hfind]
    | some p =>
      have hlen : (username_step nb c u).rejection_reasons.length =
          c.rejection_reasons.length + 1 := by
        rw [username_step_length, hfind]
        simp
      have hmono := username_loop_mono nb us (username_step nb c u)
      constructor
      · intro _
        exact Or.inl (by simp [hfind])
      · intro _
        omega

theorem dict_insert_key_mem (d : List (String × String)) (k v n : String) :
    (∃ p ∈ dict_insert d k v, p.1 = n) ↔ (∃ p ∈ d, p.1 = n) ∨ n = k := by
  unfold dict_insert
  cases hany : d.any (fun p => p.1 == k) with
  | false =>
    simp only [Bool.false_eq_true, if_false]
    constructor
    · rintro ⟨p, hp, hn⟩
      rcases List.mem_append.mp hp with h | h
      · exact Or.inl ⟨p, h, hn⟩
      · simp only [List.mem_singleton] at h
        subst h
        exact Or.inr hn.symm
    · rintro (⟨p, hp, hn⟩ | hn)
      · exact ⟨p, List.mem_append.mpr (Or.inl hp), hn⟩
      · exact ⟨(k, v), List.mem_append.mpr (Or.inr (by simp)), hn.symm⟩
  | true =>
    simp only [if_true]
    have hkey : ∀ p : String × String,
        ((if p.1 == k then (k, v) else p) : String × String).1 = p.1 := by
      intro p
      by_cases h : p.1 = k
      · simp [h]
      · simp [h]
    constructor
    · rintro ⟨p, hp, hn⟩
      obtain ⟨q, hq, hqp⟩ := List.mem_map.mp hp
      exact Or.inl ⟨q, hq, by rw [← hn, ← hqp, hkey]⟩
    · rintro (⟨p, hp, hn⟩ | hn)
      · exact ⟨(if p.1 == k then (k, v) else p), List.mem_map.mpr ⟨p, hp, rfl⟩,
          by rw [hkey, hn]⟩
      · obtain ⟨p, hp, hpk⟩ := List.any_eq_true.mp hany
        refine ⟨(if p.1 == k then (k, v) else p), List.mem_map.mpr ⟨p, hp, rfl⟩,
          ?_⟩
        rw [hkey, hn]
        exact eq_of_beq hpk

theorem normalized_bans_key_mem_general (bans : List String)
    (d : List (String × String)) (n : String) :
    (∃ p ∈ bans.foldl (fun d b => dict_insert d (normalize_name b) b) d,
        p.1 = n) ↔
      (∃ p ∈ d, p.1 = n) ∨ ∃ b ∈ bans, normalize_name b = n := by
  induction bans generalizing d with
  | nil => simp
  | cons b bans ih =>
    simp only [List.foldl_cons, List.mem_cons, exists_eq_or_imp]
    rw [ih, dict_insert_key_mem]
    constructor
    · rintro ((h | h) | h)
      · exact Or.inl h
      · exact Or.inr (Or.inl h.symm)
      · exact Or.inr (Or.inr h)
    · rintro (h | h | h)
      · exact Or.inl (Or.inl h)
      · exact Or.inl (Or.inr h.symm)
      · exact Or.inr h

theorem normalized_bans_find_isSome (bans : List String) (n : String) :
    ((normalized_bans bans).find? (fun p => p.1 == n)).isSome ↔
      ∃ b ∈ bans, normalize_name b = n := by
  rw [List.find?_isSome]
  have h := normalized_bans_key_mem_general bans [] n
  simp only [List.not_mem_nil, false_and, exists_false, false_or] at h
  constructor
  · rintro ⟨p, hp, hpn⟩
    exact h.mp ⟨p, hp, eq_of_beq hpn⟩
  · intro hb
    obtain ⟨p, hp, hpn⟩ := h.mpr hb
    exact ⟨p, hp, by simp [hpn]⟩

/-- C8: without the permission to read the guild's ban list the rejector is
a no-op (the context is returned untouched); with it, a rejection reason is
added exactly when some known username of the user, casefolded and with
internal whitespace collapsed, is equal — exact string equality — to the
equally normalized name of some banned user of this guild. -/
theorem banned_username_exact_match (ban_names usernames : List String)
    (c : ValidationContext) :
    banned_username_rejector false ban_names usernames c = c ∧
    (c.rejection_reasons.length <
        (banned_username_rejector true ban_names usernames
          c).rejection_reasons.length ↔
      ∃ u ∈ usernames, ∃ b ∈ ban_names,
        normalize_name u = normalize_name b) := by
  constructor
  · rfl
  · unfold banned_username_rejector
    rw [if_neg (by decide : ¬(true = false))]
    rw [username_loop_grows_iff]
    constructor
    · rintro ⟨u, hu, hfind⟩
      obtain ⟨b, hb, hbn⟩ :=
        (normalized_bans_find_isSome ban_names (normalize_name u)).mp hfind
      exact ⟨u, hu, b, hb, hbn.symm⟩
    · rintro ⟨u, hu, b, hb, hbn⟩
      exact ⟨u, hu,
        (normalized_bans_find_isSome ban_names (normalize_name u)).mpr
          ⟨b, hb, hbn.symm⟩⟩

/-- One ban record as returned by `BanStorage.get_bans` (spec section 3:
`BanRecord` is a `(communityId, userId, optional reason)` triple; the user
id is fixed to the evaluated user here). -/
structure BanRecord where
  guild_id : Nat
  reason : Option String
deriving DecidableEq, Repr

/-- The rejection reason text built for one distinct ban reason
(rejectors.py, lines 117-118). -/
def ban_reason_message (r : String) : String :=
  "Banned on another server. Reason: `" ++ r ++ "`."

/-- The ban loop of `BannedUserRejector.validate_member` (rejectors.py,
lines 113-120).  `read_valid gid` is the value of
`_is_valid_guild(ctx.bot.get_guild(gid))` at the time the loop re-reads
the guild: the guild still resolves and its member count still meets the
threshold.  The Python `assert` on that value raising `AssertionError` is
the `Except.error` outcome, which abandons the rest of the loop; `seen`
is the `reasons` set (insertion order) and `banned` the running flag. -/
def banned_user_loop (read_valid : Nat → Bool) :
    List BanRecord → ValidationContext → List String → Bool →
    Except Unit (ValidationContext × List String × Bool)
  | [], c, seen, banned => .ok (c, seen, banned)
  | b :: bs, c, seen, _banned =>
    if read_valid b.guild_id then
      match b.reason with
      | some r =>
        if r ∈ seen then banned_user_loop read_valid bs c seen true
        else
          banned_user_loop read_valid bs
            (add_rejection_reason c (ban_reason_message r)) (seen ++ [r]) true
      | none => banned_user_loop read_valid bs c seen true
    else .error ()

/-- `BannedUserRejector.validate_member` (rejectors.py, lines 108-123):
run the ban loop from an empty seen-set, then — when bans were seen but no
reason was recorded — add the generic rejection reason.  The guilds whose
ids were queried all met the size threshold when `guild_ids` was built;
`bans` is whatever sequence `BanStorage.get_bans` returned for them. -/
def banned_user_rejector (read_valid : Nat → Bool) (bans : List BanRecord)
    (c : ValidationContext) : Except Unit ValidationContext :=
  match banned_user_loop read_valid bans c [] false with
  | .error e => .error e
  | .ok (c', seen, banned) =>
    .ok (if seen.isEmpty && banned then
        add_rejection_reason c' "Banned on another server."
      else c')

/-- First-occurrence deduplication of the non-empty ban reasons, relative
to an already-seen set — the order in which the loop's `reasons` set
accumulates texts. -/
def dedup_new : List String → List String → List String
  | _, [] => []
  | seen, r :: rs =>
    if r ∈ seen then dedup_new seen rs
    else r :: dedup_new (seen ++ [r]) rs

/-- Written from the spec's words (spec section 4.1): the rejection
reasons `BannedUserRejector` should append — one per distinct non-empty
ban-reason text, in first-occurrence order, plus the single generic reason
when bans exist but none carries a reason. -/
def spec_ban_reasons (bans : List BanRecord) : List String :=
  let distinct := dedup_new [] (bans.filterMap BanRecord.reason)
  distinct.map ban_reason_message ++
    (if distinct.isEmpty && !bans.isEmpty then ["Banned on another server."]
     else [])

theorem banned_user_loop_ok (read_valid : Nat → Bool)
    (bans : List BanRecord) :
    ∀ (c : ValidationContext) (seen : List String) (banned : Bool),
    (∀ b ∈ bans, read_valid b.guild_id = true) →
    banned_user_loop read_valid bans c seen banned =
      .ok ((dedup_new seen (bans.filterMap BanRecord.reason)).foldl
            (fun c r => add_rejection_reason c (ban_reason_message r)) c,
          seen ++ dedup_new seen (bans.filterMap BanRecord.reason),
          banned || !bans.isEmpty) := by
  induction bans with
  | nil => intro c seen banned _; simp [banned_user_loop, dedup_new]
  | cons b bs ih =>
    intro c seen banned hvalid
    have hb : read_valid b.guild_id = true := hvalid b (by simp)
    have hbs : ∀ x ∈ bs, read_valid x.guild_id = true := by
      intro x hx
      exact hvalid x (by simp [hx])
    obtain ⟨gid, reason⟩ := b
    cases reason with
    | none =>
      simp only [banned_user_loop, hb, if_true, List.filterMap_cons]
      rw [ih c seen true hbs]
      simp
    | some r =>
      by_cases hseen : r ∈ seen
      · simp only [banned_user_loop, hb, if_true, List.filterMap_cons]
        rw [if_pos hseen, ih c seen true hbs]
        simp [dedup_new, hseen]
      · simp only [banned_user_loop, hb, if_true, List.filterMap_cons]
        rw [if_neg hseen,
          ih (add_rejection_reason c (ban_reason_message r)) (seen ++ [r])
            true hbs]
        simp [dedup_new, hseen]

theorem add_reasons_foldl (rs : List String) (c : ValidationContext) :
    ((rs.foldl (fun c r => add_rejection_reason c (ban_reason_message r))
        c).rejection_reasons =
      c.rejection_reasons ++ rs.map ban_reason_message) ∧
    ((rs.foldl (fun c r => add_rejection_reason c (ban_reason_message r))
        c).approval_reasons = c.approval_reasons) := by
  induction rs generalizing c with
  | nil => simp
  | cons r rs ih =>
    obtain ⟨ih1, ih2⟩ := ih (add_rejection_reason c (ban_reason_message r))
    constructor
    · rw [List.foldl_cons, ih1]
      simp [add_rejection_reason]
    · rw [List.foldl_cons, ih2]
      simp [add_rejection_reason]

theorem add_rejection_approval (c : ValidationContext) (s : String) :
    (add_rejection_reason c s).approval_reasons = c.approval_reasons := rfl

/-- C3 counterexample: the code does not skip a community that no longer
meets the size threshold at read time — the `assert
self._is_valid_guild(guild)` raises, abandoning the evaluation of the
remaining ban records, so the rejector ends in the fault outcome instead
of succeeding with that community skipped. -/
theorem banned_user_rejector_counterexample :
    banned_user_rejector (fun _ => false)
      [{ guild_id := 1, reason := some "spam" }] initial_context =
      .error () := rfl

/-- C3 (amended): provided every banned community still meets the size
threshold when the loop re-reads it, the rejector succeeds and appends
exactly one rejection reason per distinct non-empty ban-reason text (in
first-occurrence order, deduplicated across communities) plus the single
generic reason when bans exist but none carries a reason; the approval
reasons are untouched.  When some banned community fails the read-time
check, the code instead raises an assertion fault (isolated by the
pipeline), as the counterexample shows — it does not skip it. -/
theorem banned_user_rejector_spec (read_valid : Nat → Bool)
    (bans : List BanRecord) (c : ValidationContext)
    (h : ∀ b ∈ bans, read_valid b.guild_id = true) :
    ∃ c', banned_user_rejector read_valid bans c = .ok c' ∧
      c'.rejection_reasons = c.rejection_reasons ++ spec_ban_reasons bans ∧
      c'.approval_reasons = c.approval_reasons := by
  unfold banned_user_rejector
  rw [banned_user_loop_ok read_valid bans c [] false h]
  set distinct := dedup_new [] (bans.filterMap BanRecord.reason) with hdist
  obtain ⟨hrej, happ⟩ :=
    add_reasons_foldl distinct c
  refine ⟨_, rfl, ?_, ?_⟩
  · by_cases hcond : ([] ++ distinct).isEmpty && (false || !bans.isEmpty)
    · rw [if_pos hcond]
      simp only [Bool.and_eq_true, List.isEmpty_iff, List.nil_append,
        Bool.false_or] at hcond
      obtain ⟨hd, hbn⟩ := hcond
      have hne : bans ≠ [] := by simpa using hbn
      simp [add_rejection_reason, hrej, spec_ban_reasons, ← hdist, hd, hne]
    · rw [if_neg hcond]
      simp only [List.nil_append, Bool.false_or] at hcond
      rw [hrej]
      simp only [spec_ban_reasons, ← hdist]
      rw [Bool.and_eq_true] at hcond
      push_neg at hcond
      by_cases hd : distinct.isEmpty
      · have hbn : ¬(!bans.isEmpty) = true := by
          intro hx
          exact (hcond hd) hx
        simp only [hd, Bool.true_and] at hbn ⊢
        simp only [Bool.not_eq_true'] at hbn
        simp [hbn]
      · simp only [Bool.not_eq_true] at hd
        simp [hd]
  · by_cases hcond : ([] ++ distinct).isEmpty && (false || !bans.isEmpty)
    · rw [if_pos hcond, add_rejection_approval]
      exact happ
    · rw [if_neg hcond]
      exact happ

/-- Bans used to witness the amended C3 theorem: the same reason text from
two communities, plus a reasonless ban. -/
def witness_bans : List BanRecord :=
  [{ guild_id := 1, reason := some "raid" },
   { guild_id := 2, reason := some "raid" },
   { guild_id := 3, reason := none }]

theorem banned_user_rejector_spec_witness :
    (∀ b ∈ witness_bans, (fun _ => true : Nat → Bool) b.guild_id = true) ∧
    ∃ c', banned_user_rejector (fun _ => true) witness_bans
        initial_context = .ok c' ∧
      c'.rejection_reasons =
        initial_context.rejection_reasons ++ spec_ban_reasons witness_bans ∧
      c'.approval_reasons = initial_context.approval_reasons :=
  ⟨by decide,
    banned_user_rejector_spec (fun _ => true) witness_bans initial_context
      (by decide)⟩

/-- The reacting moderator's permission bits read by the override handler
(`__init__.py`, lines 414-421): `user.guild_permissions`. -/
structure GuildPermissions where
  manage_roles : Bool
  kick_members : Bool
  ban_members : Bool
deriving DecidableEq, Repr

/-- The action an override reaction maps to (`__init__.py`, lines 415-421):
approve, kick or ban the audited member. -/
inductive ModAction where
  | approve
  | kick
  | ban
deriving DecidableEq, Repr

/-- `APPROVE_REACTION` (`__init__.py`, line 22). -/
def APPROVE_REACTION : String := "✅"

/-- `KICK_REACTION` (`__init__.py`, line 23). -/
def KICK_REACTION : String := "❌"

/-- `BAN_REACTION` (`__init__.py`, line 24). -/
def BAN_REACTION : String := "☠"

/-- `Validation.on_raw_reaction_add` (`__init__.py`, lines 395-427) as a
decision function.  `message_ok` bundles `get_message` succeeding (guild
and modlog channel resolve, the reactor is not the bot itself, the message
exists); `has_embed` is `len(message.embeds) > 0`; `author_is_me` is
`message.author == guild.me`; `target_ok` is the audit target resolving
from the embed footer.  The result is the action performed: `none` means
the reaction is ignored — no platform call and no modlog note happen. -/
def on_raw_reaction_add (message_ok has_embed author_is_me target_ok : Bool)
    (emoji : String) (perms : GuildPermissions) : Option ModAction :=
  if message_ok = false || has_embed = false || author_is_me = false then
    none
  else if target_ok = false then none
  else
    match
      (if emoji = APPROVE_REACTION then
        some (ModAction.approve, perms.manage_roles)
      else if emoji = KICK_REACTION then
        some (ModAction.kick, perms.kick_members)
      else if emoji = BAN_REACTION then
        some (ModAction.ban, perms.ban_members)
      else none) with
    | none => none
    | some (act, perm) => if perm then some act else none

/-- C9: an override reaction performs its mapped action exactly when all
the resolution guards pass, the emoji is the matching reaction, and the
reacting moderator holds the matching permission — role management for
approve, kick permission for kick, ban permission for ban.  In every other
case (in particular whenever the permission bit is absent) the handler
returns no action: nothing is performed and nothing is written. -/
theorem reaction_permission_gate (message_ok has_embed author_is_me
    target_ok : Bool) (emoji : String) (perms : GuildPermissions) :
    (on_raw_reaction_add message_ok has_embed author_is_me target_ok emoji
        perms = some ModAction.approve ↔
      message_ok = true ∧ has_embed = true ∧ author_is_me = true ∧
        target_ok = true ∧ emoji = APPROVE_REACTION ∧
        perms.manage_roles = true) ∧
    (on_raw_reaction_add message_ok has_embed author_is_me target_ok emoji
        perms = some ModAction.kick ↔
      message_ok = true ∧ has_embed = true ∧ author_is_me = true ∧
        target_ok = true ∧ emoji = KICK_REACTION ∧
        perms.kick_members = true) ∧
    (on_raw_reaction_add message_ok has_embed author_is_me target_ok emoji
        perms = some ModAction.ban ↔
      message_ok = true ∧ has_embed = true ∧ author_is_me = true ∧
        target_ok = true ∧ emoji = BAN_REACTION ∧
        perms.ban_members = true) := by
  obtain ⟨pm, pk, pb⟩ := perms
  have hak : APPROVE_REACTION ≠ KICK_REACTION := by decide
  have hab : APPROVE_REACTION ≠ BAN_REACTION := by decide
  have hkb : KICK_REACTION ≠ BAN_REACTION := by decide
  by_cases h1 : emoji = APPROVE_REACTION
  · cases message_ok <;> cases has_embed <;> cases author_is_me <;>
      cases target_ok <;> cases pm <;> cases pk <;> cases pb <;>
      simp_all [on_raw_reaction_add]
  · by_cases h2 : emoji = KICK_REACTION
    · cases message_ok <;> cases has_embed <;> cases author_is_me <;>
        cases target_ok <;> cases pm <;> cases pk <;> cases pb <;>
        simp_all [on_raw_reaction_add]
    · by_cases h3 : emoji = BAN_REACTION
      · cases message_ok <;> cases has_embed <;> cases author_is_me <;>
          cases target_ok <;> cases pm <;> cases pk <;> cases pb <;>
          simp_all [on_raw_reaction_add]
      · cases message_ok <;> cases has_embed <;> cases author_is_me <;>
          cases target_ok <;> cases pm <;> cases pk <;> cases pb <;>
          simp_all [on_raw_reaction_add]
